import Mathlib

/-!
Shallow embedding of the iris-classification CI/CD service
(`src/utils.py`, `src/model.py`, `src/app.py`) and proofs about it.

The repository's own code is translated directly; the external
collaborators it calls (numpy's seeded random stream, sklearn's fitted
estimator, joblib serialization, the network fetch) are modelled as
explicit deterministic functions or opaque capability records, as the
spec itself treats them.
-/

namespace CICDML

/-- Modelled from the spec: one step of the seeded pseudo-random stream of
`numpy.random.RandomState` (external library).  Only determinism in the
seed and the permutation property of the draws matter to the pipeline, so
a linear congruential generator stands in for the Mersenne twister. -/
def lcg (s : Nat) : Nat := (s * 1103515245 + 12345) % 2147483648

/-- Modelled from the spec: `rng.permutation` — repeatedly draw a
pseudo-random position and remove the element there.  `fuel` starts at the
length of the list. -/
def shuffleAux : Nat → Nat → List Nat → List Nat
  | _, 0, xs => xs
  | s, fuel + 1, xs =>
    if xs.isEmpty then []
    else
      let x := xs.getD (lcg s % xs.length) 0
      x :: shuffleAux (lcg s) fuel (xs.erase x)

/-- A seeded permutation of a list of indices. -/
def shuffle (s : Nat) (xs : List Nat) : List Nat := shuffleAux s xs.length xs

/-- Seeded permutation of each list in turn, advancing the stream. -/
def shuffleAll : Nat → List (List Nat) → List (List Nat)
  | _, [] => []
  | s, l :: ls => shuffle s l :: shuffleAll (lcg s) ls

/-- `math.ceil (q * n)` for an exact rational `q` and a row count `n`
(kernel-reducible): `q * n = (q.num * n) / q.den`, and the ceiling of a
fraction with positive denominator is the negated floor-division of the
negated numerator. -/
def ceilMulNat (q : ℚ) (n : Nat) : ℤ := -(Int.fdiv (-(q.num * (n : ℤ))) (q.den : ℤ))

/-- The row indices of `y` that carry label `c` (sklearn's per-class index
groups, obtained there with a stable argsort of the label codes). -/
def classIdx (y : List String) (c : String) : List Nat :=
  (List.range y.length).filter (fun i => y.getD i ("") = c)

/-- Position `j` is served before position `i` when the leftover draws are
handed out: its remainder is larger, or equal with a smaller position
(sklearn breaks ties with the rng; the deterministic tie-break models that
draw). -/
def aheadOf (rems : List Nat) (j i : Nat) : Prop :=
  rems.getD i 0 < rems.getD j 0 ∨ (rems.getD j 0 = rems.getD i 0 ∧ j < i)

instance (rems : List Nat) (j i : Nat) : Decidable (aheadOf rems j i) :=
  inferInstanceAs (Decidable (_ ∨ _))

/-- Largest-remainder rank of position `i`: how many positions precede it
when positions are ordered by decreasing remainder, ties broken by
position. -/
def lrRank (rems : List Nat) (i : Nat) : Nat :=
  ((Finset.range rems.length).filter (fun j => aheadOf rems j i)).card

/-- sklearn's `_approximate_mode`: allocate `nDraws` draws to the classes
proportionally to `counts`, flooring, then hand each of the
`nDraws - (sum of the floors)` leftover draws to one of the classes with
the largest remainders. -/
def approximateMode (counts : List Nat) (nDraws : Nat) : List Nat :=
  (List.range counts.length).map (fun i =>
    counts.getD i 0 * nDraws / counts.sum +
      if lrRank (counts.map (fun c => c * nDraws % counts.sum)) i <
          nDraws - (counts.map (fun c => c * nDraws / counts.sum)).sum then 1 else 0)

/-- Per class: take the allocated train prefix of the class's shuffled
index list, then the allocated test block right after it. -/
def takeSplits : List (List Nat × Nat × Nat) → List Nat × List Nat
  | [] => ([], [])
  | (p, nI, tI) :: rest =>
    let r := takeSplits rest
    (p.take nI ++ r.1, (p.drop nI).take tI ++ r.2)

/-- sklearn's `StratifiedShuffleSplit` as invoked by
`train_test_split(X, y, test_size=..., random_state=..., stratify=y)`:
validation checks, per-class largest-remainder allocation of the train and
test draws, seeded per-class permutations, and a final shuffle of the two
index lists.  Returns `(train indices, test indices)`.
The first guard is sklearn's `test_size <= 0 or test_size >= 1` check,
written on the numerator and denominator of the exact rational so that it
evaluates by kernel reduction (`ts.num ≤ 0 ∨ ts.den ≤ ts.num` is the
negation of `0 < ts ∧ ts < 1`). -/
def stratifiedShuffleSplit (y : List String) (testSize : ℚ) (seed : Nat) :
    Except String (List Nat × List Nat) :=
  let n := y.length
  if testSize.num ≤ 0 ∨ (testSize.den : ℤ) ≤ testSize.num then
    .error ("test_size should be in the (0, 1) range")
  else
    let nTest := (ceilMulNat testSize n).toNat
    let nTrain := n - nTest
    if nTrain = 0 then .error ("the resulting train set will be empty")
    else
      let classes := y.dedup
      let counts := classes.map (fun c => (classIdx y c).length)
      if counts.any (fun m => m < 2) then
        .error ("The least populated class in y has only 1 member, which is too few.")
      else if nTrain < classes.length then
        .error ("The train_size should be greater or equal to the number of classes")
      else if nTest < classes.length then
        .error ("The test_size should be greater or equal to the number of classes")
      else
        let nIs := approximateMode counts nTrain
        let tIs := approximateMode (List.zipWith (fun c a => c - a) counts nIs) nTest
        let perms := shuffleAll (lcg seed) (classes.map (fun c => classIdx y c))
        let split := takeSplits (perms.zip (nIs.zip tIs))
        .ok (shuffle (lcg (seed + n)) split.1, shuffle (lcg (seed + n + 1)) split.2)

/-- One parsed row of the labeled table: the numeric feature cells and the
trailing categorical label (`utils.load_data` fixes this schema). -/
structure Row where
  features : List ℚ
  label : String
deriving DecidableEq, Inhabited

/-- The four arrays `utils.preprocess_data` returns. -/
structure SplitResult where
  XTrain : List (List ℚ)
  XTest : List (List ℚ)
  yTrain : List String
  yTest : List String
deriving DecidableEq

/-- `utils.preprocess_data`: separate the feature columns from the label
column and split with the stratified, seeded `train_test_split`. -/
def preprocess_data (data : List Row) (test_size : ℚ) (random_state : Nat) :
    Except String SplitResult :=
  (stratifiedShuffleSplit (data.map Row.label) test_size random_state).map (fun p =>
    { XTrain := p.1.map (fun i => (data.getD i default).features)
      XTest := p.2.map (fun i => (data.getD i default).features)
      yTrain := p.1.map (fun i => (data.getD i default).label)
      yTest := p.2.map (fun i => (data.getD i default).label) })

/-! ### Permutation facts about the modelled rng -/

theorem shuffleAux_perm (fuel : Nat) :
    ∀ (s : Nat) (xs : List Nat), (shuffleAux s fuel xs).Perm xs := by
  induction fuel with
  | zero => intro s xs; exact .refl _
  | succ n ih =>
    intro s xs
    rw [shuffleAux]
    by_cases h : xs.isEmpty
    · rw [if_pos h, List.isEmpty_iff.mp h]
    · rw [if_neg h]
      have hne : xs ≠ [] := fun hh => h (by simp [hh])
      have hlen : 0 < xs.length := List.length_pos.mpr hne
      have hmem : xs.getD (lcg s % xs.length) 0 ∈ xs := by
        rw [List.getD_eq_getElem xs 0 (Nat.mod_lt _ hlen)]
        exact List.getElem_mem _
      exact ((ih (lcg s) _).cons _).trans (List.perm_cons_erase hmem).symm

theorem shuffle_perm (s : Nat) (xs : List Nat) : (shuffle s xs).Perm xs :=
  shuffleAux_perm xs.length s xs

theorem shuffleAll_forall₂ (s : Nat) (ls : List (List Nat)) :
    List.Forall₂ (fun a b => a.Perm b) (shuffleAll s ls) ls := by
  induction ls generalizing s with
  | nil => exact .nil
  | cons l ls ih => exact .cons (shuffle_perm s l) (ih (lcg s))

theorem forall₂_perm_flatten {l₁ l₂ : List (List Nat)}
    (h : List.Forall₂ (fun a b => a.Perm b) l₁ l₂) : l₁.flatten.Perm l₂.flatten := by
  induction h with
  | nil => exact .refl _
  | cons hab _ ih => simpa using hab.append ih

/-! ### Small list bookkeeping lemmas -/

theorem map_getD_range {α : Type} (d : α) (l : List α) :
    (List.range l.length).map (fun i => l.getD i d) = l := by
  induction l with
  | nil => rfl
  | cons a t ih =>
    rw [List.length_cons, List.range_succ_eq_map, List.map_cons, List.map_map]
    refine congrArg (a :: ·) ?_
    calc List.map ((fun i => (a :: t).getD i d) ∘ Nat.succ) (List.range t.length)
        = List.map (fun i => t.getD i d) (List.range t.length) :=
          List.map_congr_left (fun i _ => rfl)
      _ = t := ih

theorem sum_map_range_eq (f : Nat → Nat) (n : Nat) :
    ((List.range n).map f).sum = ∑ i ∈ Finset.range n, f i := by
  induction n with
  | zero => rfl
  | succ m ih =>
    rw [List.range_succ, List.map_append, List.sum_append, Finset.sum_range_succ, ih]
    simp

theorem sum_getD_range (l : List Nat) :
    (∑ i ∈ Finset.range l.length, l.getD i 0) = l.sum := by
  rw [← sum_map_range_eq, map_getD_range]

theorem sum_map_add_distrib (l : List Nat) (f g : Nat → Nat) :
    (l.map (fun c => f c + g c)).sum = (l.map f).sum + (l.map g).sum := by
  induction l with
  | nil => rfl
  | cons a t ih => simp only [List.map_cons, List.sum_cons, ih]; omega

theorem sum_map_mul_left_nat (l : List Nat) (t : Nat) (f : Nat → Nat) :
    (l.map (fun c => t * f c)).sum = t * (l.map f).sum := by
  induction l with
  | nil => rfl
  | cons a tl ih => simp only [List.map_cons, List.sum_cons, ih, Nat.mul_add]

theorem sum_map_mul_right_nat (l : List Nat) (d : Nat) :
    (l.map (fun c => c * d)).sum = l.sum * d := by
  induction l with
  | nil => simp
  | cons a tl ih => simp only [List.map_cons, List.sum_cons, ih, Nat.add_mul]

theorem div_add_div_le (a b t : Nat) : a / t + b / t ≤ (a + b) / t := by
  rcases Nat.eq_zero_or_pos t with h | h
  · subst h; simp
  · rw [Nat.le_div_iff_mul_le h, Nat.add_mul]
    exact Nat.add_le_add (Nat.div_mul_le_self a t) (Nat.div_mul_le_self b t)

theorem sum_map_div_le (l : List Nat) (d t : Nat) :
    (l.map (fun c => c * d / t)).sum ≤ l.sum * d / t := by
  induction l with
  | nil => simp
  | cons a tl ih =>
    simp only [List.map_cons, List.sum_cons, List.sum_cons]
    calc a * d / t + (tl.map (fun c => c * d / t)).sum
        ≤ a * d / t + tl.sum * d / t := Nat.add_le_add_left ih _
      _ ≤ (a * d + tl.sum * d) / t := div_add_div_le _ _ _
      _ = (a + tl.sum) * d / t := by rw [Nat.add_mul]

/-! ### The largest-remainder rank is a bijection onto `range n` -/

theorem aheadOf_irrefl (rems : List Nat) (i : Nat) : ¬ aheadOf rems i i := by
  unfold aheadOf; omega

theorem aheadOf_trans {rems : List Nat} {a b c : Nat}
    (h₁ : aheadOf rems a b) (h₂ : aheadOf rems b c) : aheadOf rems a c := by
  unfold aheadOf at *; omega

theorem aheadOf_total {rems : List Nat} {i j : Nat} (h : i ≠ j) :
    aheadOf rems i j ∨ aheadOf rems j i := by
  unfold aheadOf; omega

theorem lrRank_lt_length (rems : List Nat) {i : Nat} (hi : i < rems.length) :
    lrRank rems i < rems.length := by
  have hsub : (Finset.range rems.length).filter (fun j => aheadOf rems j i) ⊆
      (Finset.range rems.length).erase i := by
    intro j hj
    rw [Finset.mem_filter] at hj
    rw [Finset.mem_erase]
    exact ⟨fun hji => aheadOf_irrefl rems i (hji ▸ hj.2), hj.1⟩
  have hcard := Finset.card_le_card hsub
  rw [Finset.card_erase_of_mem (Finset.mem_range.mpr hi), Finset.card_range] at hcard
  have : 0 < rems.length := Nat.lt_of_le_of_lt (Nat.zero_le i) hi
  unfold lrRank
  omega

theorem lrRank_lt_of_aheadOf {rems : List Nat} {i j : Nat}
    (hi : i < rems.length) (hij : aheadOf rems i j) :
    lrRank rems i < lrRank rems j := by
  unfold lrRank
  apply Finset.card_lt_card
  rw [Finset.ssubset_iff_of_subset]
  · refine ⟨i, ?_, ?_⟩
    · rw [Finset.mem_filter]; exact ⟨Finset.mem_range.mpr hi, hij⟩
    · rw [Finset.mem_filter]
      exact fun hmem => aheadOf_irrefl rems i hmem.2
  · intro k hk
    rw [Finset.mem_filter] at hk
    rw [Finset.mem_filter]
    exact ⟨hk.1, aheadOf_trans hk.2 hij⟩

theorem range_filter_lt_card (n m : Nat) :
    ((Finset.range n).filter (fun v => v < m)).card = min m n := by
  have hset : (Finset.range n).filter (fun v => v < m) = Finset.range (min m n) := by
    ext v
    rw [Finset.mem_filter, Finset.mem_range, Finset.mem_range]
    omega
  rw [hset, Finset.card_range]

theorem card_filter_lrRank_lt (rems : List Nat) (m : Nat) :
    ((Finset.range rems.length).filter (fun i => lrRank rems i < m)).card =
      min m rems.length := by
  have hinj : Set.InjOn (fun i => lrRank rems i) ↑(Finset.range rems.length) := by
    intro a ha b hb hab
    by_contra hne
    rw [Finset.coe_range, Set.mem_Iio] at ha hb
    rcases aheadOf_total hne with h | h
    · exact Nat.ne_of_lt (lrRank_lt_of_aheadOf ha h) hab
    · exact Nat.ne_of_lt (lrRank_lt_of_aheadOf hb h) hab.symm
  have himg : (Finset.range rems.length).image (fun i => lrRank rems i) =
      Finset.range rems.length := by
    apply Finset.eq_of_subset_of_card_le
    · intro v hv
      rw [Finset.mem_image] at hv
      obtain ⟨i, hi, rfl⟩ := hv
      exact Finset.mem_range.mpr (lrRank_lt_length rems (Finset.mem_range.mp hi))
    · rw [Finset.card_image_of_injOn hinj]
  have hinj' : Set.InjOn (fun i => lrRank rems i)
      ↑((Finset.range rems.length).filter (fun i => lrRank rems i < m)) :=
    hinj.mono (by exact_mod_cast Finset.filter_subset _ _)
  calc ((Finset.range rems.length).filter (fun i => lrRank rems i < m)).card
      = (((Finset.range rems.length).filter (fun i => lrRank rems i < m)).image
          (fun i => lrRank rems i)).card := (Finset.card_image_of_injOn hinj').symm
    _ = (((Finset.range rems.length).image (fun i => lrRank rems i)).filter
          (fun v => v < m)).card := by rw [Finset.filter_image]
    _ = ((Finset.range rems.length).filter (fun v => v < m)).card := by rw [himg]
    _ = min m rems.length := range_filter_lt_card _ _

/-! ### The largest-remainder allocation: totals and pointwise bounds -/

theorem approx_key (counts : List Nat) (d : Nat) :
    counts.sum * d =
      counts.sum * (counts.map (fun c => c * d / counts.sum)).sum +
        (counts.map (fun c => c * d % counts.sum)).sum := by
  have hpt : counts.map (fun c => c * d) =
      counts.map (fun c =>
        counts.sum * (c * d / counts.sum) + c * d % counts.sum) :=
    List.map_congr_left (fun c _ => (Nat.div_add_mod (c * d) counts.sum).symm)
  have h1 : (counts.map (fun c => c * d)).sum = counts.sum * d :=
    sum_map_mul_right_nat counts d
  have h2 : (counts.map (fun c =>
      counts.sum * (c * d / counts.sum) + c * d % counts.sum)).sum =
      counts.sum * (counts.map (fun c => c * d / counts.sum)).sum +
        (counts.map (fun c => c * d % counts.sum)).sum := by
    rw [sum_map_add_distrib counts (fun c => counts.sum * (c * d / counts.sum))
      (fun c => c * d % counts.sum),
      sum_map_mul_left_nat counts counts.sum (fun c => c * d / counts.sum)]
  rw [← h1, hpt, h2]

theorem floored_sum_le (counts : List Nat) (d : Nat) :
    (counts.map (fun c => c * d / counts.sum)).sum ≤ d := by
  rcases Nat.eq_zero_or_pos counts.sum with h | h
  · have hz : counts.map (fun c => c * d / counts.sum) = counts.map (fun _ => 0) :=
      List.map_congr_left (fun c _ => by rw [h, Nat.div_zero])
    rw [hz]
    simp
  · have h1 := sum_map_div_le counts d counts.sum
    rwa [Nat.mul_div_cancel_left d h] at h1

theorem t_mul_need (counts : List Nat) (d : Nat) :
    counts.sum * (d - (counts.map (fun c => c * d / counts.sum)).sum) =
      (counts.map (fun c => c * d % counts.sum)).sum := by
  have hkey := approx_key counts d
  have hle := floored_sum_le counts d
  have hsplit : counts.sum * (d - (counts.map (fun c => c * d / counts.sum)).sum) +
      counts.sum * (counts.map (fun c => c * d / counts.sum)).sum = counts.sum * d := by
    rw [← Nat.mul_add, Nat.sub_add_cancel hle]
  omega

theorem rems_sum_le (counts : List Nat) (d : Nat) (h : 0 < counts.sum) :
    (counts.map (fun c => c * d % counts.sum)).sum ≤
      ((Finset.range counts.length).filter
        (fun j => (counts.map (fun c => c * d % counts.sum)).getD j 0 ≠ 0)).card *
        (counts.sum - 1) := by
  have hlen : (counts.map (fun c => c * d % counts.sum)).length = counts.length :=
    List.length_map _ _
  rw [← sum_getD_range (counts.map (fun c => c * d % counts.sum)), hlen]
  rw [← Finset.sum_filter_add_sum_filter_not (Finset.range counts.length)
    (fun j => (counts.map (fun c => c * d % counts.sum)).getD j 0 ≠ 0)]
  have hz : (∑ j ∈ (Finset.range counts.length).filter
      (fun j => ¬ (counts.map (fun c => c * d % counts.sum)).getD j 0 ≠ 0),
      (counts.map (fun c => c * d % counts.sum)).getD j 0) = 0 := by
    refine Finset.sum_eq_zero (fun j hj => ?_)
    rw [Finset.mem_filter] at hj
    exact Decidable.not_not.mp hj.2
  rw [hz, Nat.add_zero]
  refine Finset.sum_le_card_nsmul _ _ (counts.sum - 1) (fun j hj => ?_)
  rcases Nat.lt_or_ge j (counts.map (fun c => c * d % counts.sum)).length with hjl | hjl
  · have hj2 : j < counts.length := by simpa using hjl
    rw [List.getD_eq_getElem _ 0 hjl, List.getElem_map]
    have hmod : counts[j] * d % counts.sum < counts.sum := Nat.mod_lt _ h
    omega
  · rw [List.getD_eq_default _ 0 hjl]
    exact Nat.zero_le _

theorem approx_length (counts : List Nat) (d : Nat) :
    (approximateMode counts d).length = counts.length := by
  simp [approximateMode]

/-- The allocation hands out exactly `d` draws when `d` does not exceed the
total number of available samples. -/
theorem approx_sum (counts : List Nat) (d : Nat) (hd : d ≤ counts.sum) :
    (approximateMode counts d).sum = d := by
  have hrlen : (counts.map (fun c => c * d % counts.sum)).length = counts.length :=
    List.length_map _ _
  have hfl_le := floored_sum_le counts d
  unfold approximateMode
  rw [sum_map_range_eq, Finset.sum_add_distrib]
  have h1 : (∑ i ∈ Finset.range counts.length, counts.getD i 0 * d / counts.sum) =
      (counts.map (fun c => c * d / counts.sum)).sum := by
    rw [← sum_getD_range (counts.map (fun c => c * d / counts.sum)), List.length_map]
    refine Finset.sum_congr rfl (fun i hi => ?_)
    rw [Finset.mem_range] at hi
    have : (counts.map (fun c => c * d / counts.sum)).getD i 0 =
        counts.getD i 0 * d / counts.sum := by
      rw [List.getD_eq_getElem _ 0 (by simpa using hi), List.getElem_map,
        List.getD_eq_getElem _ 0 hi]
    rw [this]
  have h2 : (∑ i ∈ Finset.range counts.length,
      if lrRank (counts.map (fun c => c * d % counts.sum)) i <
        d - (counts.map (fun c => c * d / counts.sum)).sum then 1 else 0) =
      min (d - (counts.map (fun c => c * d / counts.sum)).sum) counts.length := by
    have hcf := card_filter_lrRank_lt (counts.map (fun c => c * d % counts.sum))
      (d - (counts.map (fun c => c * d / counts.sum)).sum)
    rw [hrlen] at hcf
    rw [← hcf, Finset.card_filter]
  rw [h1, h2]
  rcases Nat.eq_zero_or_pos counts.sum with ht | ht
  · have hd0 : d = 0 := Nat.le_zero.mp (ht ▸ hd)
    subst hd0
    omega
  · have htn := t_mul_need counts d
    have hrb := rems_sum_le counts d ht
    have hpc : ((Finset.range counts.length).filter
        (fun j => (counts.map (fun c => c * d % counts.sum)).getD j 0 ≠ 0)).card ≤
        counts.length :=
      le_trans (Finset.card_filter_le _ _) (by rw [Finset.card_range])
    have hneed_le : d - (counts.map (fun c => c * d / counts.sum)).sum ≤
        counts.length := by
      by_contra hgt
      push_neg at hgt
      have h3 : counts.sum * (counts.length + 1) ≤
          counts.sum * (d - (counts.map (fun c => c * d / counts.sum)).sum) :=
        Nat.mul_le_mul_left _ hgt
      have h4 : ((Finset.range counts.length).filter
          (fun j => (counts.map (fun c => c * d % counts.sum)).getD j 0 ≠ 0)).card *
          (counts.sum - 1) ≤ counts.length * (counts.sum - 1) :=
        Nat.mul_le_mul_right _ hpc
      have e1 : counts.sum * (counts.length + 1) =
          counts.sum * counts.length + counts.sum := by ring
      have e2 : counts.length * (counts.sum - 1) + counts.length =
          counts.length * counts.sum := by
        have hts : counts.sum - 1 + 1 = counts.sum := Nat.sub_add_cancel ht
        calc counts.length * (counts.sum - 1) + counts.length
            = counts.length * ((counts.sum - 1) + 1) := by ring
          _ = counts.length * counts.sum := by rw [hts]
      have e3 : counts.sum * counts.length = counts.length * counts.sum :=
        Nat.mul_comm _ _
      omega
    omega

/-- When some leftover draw exists, strictly more classes have a non-zero
remainder than there are leftover draws to hand out. -/
theorem need_lt_posCard (counts : List Nat) (d : Nat) (ht : 0 < counts.sum)
    (hpos : 0 < d - (counts.map (fun c => c * d / counts.sum)).sum) :
    d - (counts.map (fun c => c * d / counts.sum)).sum <
      ((Finset.range counts.length).filter
        (fun j => (counts.map (fun c => c * d % counts.sum)).getD j 0 ≠ 0)).card := by
  set need := d - (counts.map (fun c => c * d / counts.sum)).sum with hneedDef
  set S := (counts.map (fun c => c * d % counts.sum)).sum with hSDef
  set pc := ((Finset.range counts.length).filter
      (fun j => (counts.map (fun c => c * d % counts.sum)).getD j 0 ≠ 0)).card with hpcDef
  have htn : counts.sum * need = S := t_mul_need counts d
  have hrb : S ≤ pc * (counts.sum - 1) := rems_sum_le counts d ht
  by_contra hge
  push_neg at hge
  have h5 : counts.sum * pc ≤ counts.sum * need := Nat.mul_le_mul_left _ hge
  have e2 : pc * (counts.sum - 1) + pc = pc * counts.sum := by
    have hts : counts.sum - 1 + 1 = counts.sum := Nat.sub_add_cancel ht
    calc pc * (counts.sum - 1) + pc = pc * ((counts.sum - 1) + 1) := by ring
      _ = pc * counts.sum := by rw [hts]
  have e3 : counts.sum * pc = pc * counts.sum := Nat.mul_comm _ _
  have hpc0 : pc = 0 := by omega
  rw [hpc0, Nat.zero_mul] at hrb
  have hS0 : S = 0 := Nat.le_zero.mp hrb
  rw [hS0] at htn
  rcases Nat.mul_eq_zero.mp htn with h0 | h0
  · omega
  · omega

/-- Each class is allocated at most all of its own samples when `d` does
not exceed the total number of samples. -/
theorem approx_le (counts : List Nat) (d : Nat) (hd : d ≤ counts.sum) :
    List.Forall₂ (fun a b => a ≤ b) (approximateMode counts d) counts := by
  rw [List.forall₂_iff_get]
  refine ⟨approx_length counts d, fun i h₁ h₂ => ?_⟩
  have hget : (approximateMode counts d).get ⟨i, h₁⟩ =
      counts.getD i 0 * d / counts.sum +
        (if lrRank (counts.map (fun c => c * d % counts.sum)) i <
            d - (counts.map (fun c => c * d / counts.sum)).sum then 1 else 0) := by
    simp only [approximateMode, List.get_eq_getElem, List.getElem_map,
      List.getElem_range]
  have hval : counts.get ⟨i, h₂⟩ = counts.getD i 0 := by
    rw [List.get_eq_getElem, List.getD_eq_getElem _ 0 h₂]
  rw [hget, hval]
  by_cases hc : lrRank (counts.map (fun c => c * d % counts.sum)) i <
      d - (counts.map (fun c => c * d / counts.sum)).sum
  · rw [if_pos hc]
    have hneedpos : 0 < d - (counts.map (fun c => c * d / counts.sum)).sum := by
      omega
    have ht : 0 < counts.sum := by
      rcases Nat.eq_zero_or_pos counts.sum with h0 | h0
      · have hd0 : d = 0 := Nat.le_zero.mp (h0 ▸ hd)
        omega
      · exact h0
    have hneed_lt_pc := need_lt_posCard counts d ht hneedpos
    have hrem_ne : (counts.map (fun c => c * d % counts.sum)).getD i 0 ≠ 0 := by
      intro h0
      have hsub : (Finset.range counts.length).filter
          (fun j => (counts.map (fun c => c * d % counts.sum)).getD j 0 ≠ 0) ⊆
          (Finset.range (counts.map (fun c => c * d % counts.sum)).length).filter
            (fun j => aheadOf (counts.map (fun c => c * d % counts.sum)) j i) := by
        intro j hj
        rw [Finset.mem_filter] at hj
        rw [Finset.mem_filter]
        refine ⟨by simpa using hj.1, Or.inl ?_⟩
        rw [h0]
        exact Nat.pos_of_ne_zero hj.2
      have hcard := Finset.card_le_card hsub
      have hle2 : ((Finset.range counts.length).filter
          (fun j => (counts.map (fun c => c * d % counts.sum)).getD j 0 ≠ 0)).card ≤
          lrRank (counts.map (fun c => c * d % counts.sum)) i := hcard
      omega
    have hremval : (counts.map (fun c => c * d % counts.sum)).getD i 0 =
        counts.getD i 0 * d % counts.sum := by
      rw [List.getD_eq_getElem _ 0 (by simpa using h₂), List.getElem_map,
        List.getD_eq_getElem _ 0 h₂]
    by_contra hlt
    push_neg at hlt
    have hle3 : counts.getD i 0 ≤ counts.getD i 0 * d / counts.sum := by omega
    rw [Nat.le_div_iff_mul_le ht] at hle3
    have hle4 : counts.getD i 0 * d ≤ counts.getD i 0 * counts.sum :=
      Nat.mul_le_mul_left _ hd
    have heq : counts.getD i 0 * d = counts.getD i 0 * counts.sum :=
      Nat.le_antisymm hle4 hle3
    apply hrem_ne
    rw [hremval, heq, Nat.mul_mod_left]
  · rw [if_neg hc, Nat.add_zero]
    rcases Nat.eq_zero_or_pos counts.sum with ht | ht
    · rw [ht, Nat.div_zero]
      exact Nat.zero_le _
    · calc counts.getD i 0 * d / counts.sum
          ≤ counts.getD i 0 * counts.sum / counts.sum :=
            Nat.div_le_div_right (Nat.mul_le_mul_left _ hd)
        _ = counts.getD i 0 := Nat.mul_div_cancel _ ht

/-- Allocating exactly as many draws as there are samples hands every class
all of its own samples. -/
theorem approx_eq_self (counts : List Nat) :
    approximateMode counts counts.sum = counts := by
  have hfl : ∀ c ∈ counts, c * counts.sum / counts.sum = c := by
    intro c hc
    rcases Nat.eq_zero_or_pos counts.sum with ht | ht
    · have hc0 : c = 0 := by
        have hall := (List.sum_eq_zero_iff).mp ht
        exact hall c hc
      rw [hc0, ht]
    · exact Nat.mul_div_cancel _ ht
  have hflsum : (counts.map (fun c => c * counts.sum / counts.sum)).sum =
      counts.sum := by
    have hmap : counts.map (fun c => c * counts.sum / counts.sum) =
        counts.map (fun c => c) := List.map_congr_left hfl
    rw [hmap, List.map_id']
  have hneed : counts.sum -
      (counts.map (fun c => c * counts.sum / counts.sum)).sum = 0 := by
    rw [hflsum]
    omega
  unfold approximateMode
  refine Eq.trans (List.map_congr_left fun i hi => ?_) (map_getD_range 0 counts)
  rw [hneed, if_neg (Nat.not_lt_zero _), Nat.add_zero]
  have hi2 : i < counts.length := List.mem_range.mp hi
  have hmem : counts.getD i 0 ∈ counts := by
    rw [List.getD_eq_getElem _ 0 hi2]
    exact List.getElem_mem _
  exact hfl _ hmem

/-! ### Reassembling the per-class prefixes and blocks -/

theorem append_exchange_perm {α : Type} (a b c d : List α) :
    ((a ++ b) ++ (c ++ d)).Perm ((a ++ c) ++ (b ++ d)) := by
  have h1 : (b ++ (c ++ d)).Perm (c ++ (b ++ d)) := by
    have h := (@List.perm_append_comm _ b c).append_right d
    simpa [List.append_assoc] using h
  have h2 := h1.append_left a
  simpa [List.append_assoc] using h2

theorem takeSplits_perm (l : List (List Nat × Nat × Nat))
    (h : ∀ x ∈ l, x.1.length ≤ x.2.1 + x.2.2) :
    ((takeSplits l).1 ++ (takeSplits l).2).Perm (l.map Prod.fst).flatten := by
  induction l with
  | nil => exact .refl _
  | cons a rest ih =>
    obtain ⟨p, nI, tI⟩ := a
    have hlen : p.length ≤ nI + tI := h _ (List.mem_cons_self _ _)
    have hp : p.take nI ++ (p.drop nI).take tI = p := by
      rcases Nat.le_total p.length nI with hle | hle
      · rw [List.take_of_length_le hle, List.drop_eq_nil_of_le hle]
        simp
      · have hdlen : (p.drop nI).length = p.length - nI := List.length_drop _ _
        have hdle : (p.drop nI).length ≤ tI := by omega
        rw [List.take_of_length_le hdle, List.take_append_drop]
    have ihr := ih (fun x hx => h x (List.mem_cons_of_mem _ hx))
    simp only [takeSplits, List.map_cons, List.flatten_cons]
    refine (append_exchange_perm _ _ _ _).trans ?_
    rw [hp]
    exact ihr.append_left p

/-! ### The per-class index groups partition the row indices -/

theorem flatten_filter_classes (lab : Nat → String) :
    ∀ (cs : List String) (idxs : List Nat), cs.Nodup → (∀ i ∈ idxs, lab i ∈ cs) →
      ((cs.map (fun c => idxs.filter (fun i => lab i = c))).flatten).Perm idxs := by
  intro cs
  induction cs with
  | nil =>
    intro idxs _ hcov
    have hnil : idxs = [] :=
      List.eq_nil_iff_forall_not_mem.mpr (fun i hi => by simpa using hcov i hi)
    rw [hnil]
    exact .refl _
  | cons c cs ih =>
    intro idxs hnd hcov
    rw [List.map_cons, List.flatten_cons]
    have hnd' : cs.Nodup := (List.nodup_cons.mp hnd).2
    have hcne : c ∉ cs := (List.nodup_cons.mp hnd).1
    have hmapeq : cs.map (fun c' => idxs.filter (fun i => lab i = c')) =
        cs.map (fun c' =>
          (idxs.filter (fun i => ¬ lab i = c)).filter (fun i => lab i = c')) := by
      refine List.map_congr_left (fun c' hc' => ?_)
      have hcc : c' ≠ c := fun hcc' => hcne (hcc' ▸ hc')
      rw [List.filter_filter]
      refine (List.filter_congr (fun i _ => ?_)).symm
      by_cases hci : lab i = c'
      · simp [hci, hcc]
      · simp [hci]
    rw [hmapeq]
    have hcov' : ∀ i ∈ idxs.filter (fun i => ¬ lab i = c), lab i ∈ cs := by
      intro i hi
      rw [List.mem_filter] at hi
      have hmem := hcov i hi.1
      rw [List.mem_cons] at hmem
      rcases hmem with hh | hh
      · exact absurd hh (by simpa using hi.2)
      · exact hh
    have hperm := ih (idxs.filter (fun i => ¬ lab i = c)) hnd' hcov'
    refine (hperm.append_left _).trans ?_
    have hfp := List.filter_append_perm (fun i => lab i = c) idxs
    simpa [decide_not] using hfp

theorem flatten_classIdx_perm (y : List String) :
    ((y.dedup.map (fun c => classIdx y c)).flatten).Perm (List.range y.length) := by
  refine flatten_filter_classes (fun i => y.getD i ("")) y.dedup (List.range y.length)
    (List.nodup_dedup y) ?_
  intro i hi
  rw [List.mem_range] at hi
  rw [List.mem_dedup]
  show y.getD i ("") ∈ y
  rw [List.getD_eq_getElem _ _ hi]
  exact List.getElem_mem _

theorem sum_zipWith_sub :
    ∀ {xs ys : List Nat}, List.Forall₂ (fun x y => x ≤ y) xs ys →
      (List.zipWith (fun c a => c - a) ys xs).sum = ys.sum - xs.sum ∧
        xs.sum ≤ ys.sum := by
  intro xs ys h
  induction h with
  | nil => exact ⟨rfl, Nat.le_refl _⟩
  | cons hxy hrest ih =>
    obtain ⟨ihs, ihle⟩ := ih
    simp only [List.zipWith_cons_cons, List.sum_cons]
    constructor
    · rw [ihs]
      omega
    · omega

/-! ### The stratified split partitions the row indices -/

theorem split_core_perm (y : List String) (s0 nTrain nTest : Nat)
    (cIdx : List (List Nat)) (counts nIs rem tIs : List Nat)
    (perms : List (List Nat))
    (hcIdx : cIdx = y.dedup.map (fun c => classIdx y c))
    (hcounts : counts = y.dedup.map (fun c => (classIdx y c).length))
    (hnIs : nIs = approximateMode counts nTrain)
    (hrem : rem = List.zipWith (fun c a => c - a) counts nIs)
    (htIs : tIs = approximateMode rem nTest)
    (hperms : perms = shuffleAll s0 cIdx)
    (hsplit : nTrain + nTest = y.length) :
    ((takeSplits (perms.zip (nIs.zip tIs))).1 ++
      (takeSplits (perms.zip (nIs.zip tIs))).2).Perm (List.range y.length) := by
  have hF1 : List.Forall₂ (fun a b => a.Perm b) perms cIdx := by
    rw [hperms]
    exact shuffleAll_forall₂ s0 cIdx
  have hF2 : cIdx.flatten.Perm (List.range y.length) := by
    rw [hcIdx]
    exact flatten_classIdx_perm y
  have hlen_cIdx : cIdx.length = y.dedup.length := by
    rw [hcIdx]
    exact List.length_map _ _
  have hlen_counts : counts.length = y.dedup.length := by
    rw [hcounts]
    exact List.length_map _ _
  have hsum_counts : counts.sum = y.length := by
    have h1 : counts = cIdx.map List.length := by
      rw [hcounts, hcIdx, List.map_map]
      rfl
    rw [h1, ← List.length_flatten, hF2.length_eq, List.length_range]
  have hTrain_le : nTrain ≤ counts.sum := by
    rw [hsum_counts]
    omega
  have hnIs_sum : nIs.sum = nTrain := by
    rw [hnIs]
    exact approx_sum counts nTrain hTrain_le
  have hnIs_le : List.Forall₂ (fun a b => a ≤ b) nIs counts := by
    rw [hnIs]
    exact approx_le counts nTrain hTrain_le
  have hrem_sum : rem.sum = nTest := by
    obtain ⟨hs, hle⟩ := sum_zipWith_sub hnIs_le
    rw [hrem, hs, hnIs_sum, hsum_counts]
    omega
  have htIs_eq : tIs = rem := by
    rw [htIs, ← hrem_sum]
    exact approx_eq_self rem
  have hlen_nIs : nIs.length = counts.length := by
    rw [hnIs]
    exact approx_length _ _
  have hlen_perms : perms.length = cIdx.length := hF1.length_eq
  have hlen_rem : rem.length = counts.length := by
    rw [hrem, List.length_zipWith, hlen_nIs]
    exact Nat.min_self _
  have hcond : ∀ x ∈ perms.zip (nIs.zip tIs), x.1.length ≤ x.2.1 + x.2.2 := by
    intro x hx
    obtain ⟨⟨k, hk⟩, hxeq⟩ := List.get_of_mem hx
    have hk1 : k < perms.length := by
      rw [List.length_zip] at hk
      omega
    have hk4 : k < y.dedup.length := by
      rw [← hlen_cIdx, ← hlen_perms]
      exact hk1
    have hk2 : k < nIs.length := by
      rw [hlen_nIs, hlen_counts]
      exact hk4
    have hk3 : k < tIs.length := by
      rw [htIs_eq, hlen_rem, hlen_counts]
      exact hk4
    have hkc : k < counts.length := by
      rw [hlen_counts]
      exact hk4
    have hkI : k < cIdx.length := by
      rw [hlen_cIdx]
      exact hk4
    subst hxeq
    rw [List.get_eq_getElem, List.getElem_zip, List.getElem_zip]
    show (perms[k]).length ≤ nIs[k] + tIs[k]
    have hpp : (perms[k]).Perm (cIdx[k]) := by
      have hg := (List.forall₂_iff_get.mp hF1).2 k hk1 hkI
      rw [List.get_eq_getElem, List.get_eq_getElem] at hg
      exact hg
    have hplen : (perms[k]).length = (cIdx[k]).length := hpp.length_eq
    have hcountk : counts[k] = (cIdx[k]).length := by
      have h1 : counts[k] = (classIdx y (y.dedup[k])).length := by
        have := hcounts
        subst this
        rw [List.getElem_map]
      have h2 : cIdx[k] = classIdx y (y.dedup[k]) := by
        have := hcIdx
        subst this
        rw [List.getElem_map]
      rw [h1, h2]
    have htk : tIs[k] = counts[k] - nIs[k] := by
      have h1 : tIs[k] = rem[k] := by
        congr 1
      have hkr : k < rem.length := by
        rw [hlen_rem]
        exact hkc
      have h2 : rem[k] = counts[k] - nIs[k] := by
        have := hrem
        subst this
        rw [List.getElem_zipWith]
      rw [h1, h2]
    rw [hplen, ← hcountk, htk]
    omega
  have hTS := takeSplits_perm (perms.zip (nIs.zip tIs)) hcond
  have hfst : (perms.zip (nIs.zip tIs)).map Prod.fst = perms := by
    apply List.map_fst_zip
    rw [List.length_zip, hlen_nIs, hlen_counts, htIs_eq, hlen_rem, hlen_counts,
      hlen_perms, hlen_cIdx]
    omega
  rw [hfst] at hTS
  exact hTS.trans ((forall₂_perm_flatten hF1).trans hF2)

/-- Whenever the embedded `StratifiedShuffleSplit` succeeds, the train and
test index lists together are a permutation of `range n`: every row index
appears exactly once across the two subsets. -/
theorem stratified_partition (y : List String) (ts : ℚ) (seed : Nat)
    (ti si : List Nat) (h : stratifiedShuffleSplit y ts seed = .ok (ti, si)) :
    (ti ++ si).Perm (List.range y.length) := by
  simp only [stratifiedShuffleSplit] at h
  split at h
  next hts => simp at h
  next hts =>
    split at h
    next htr0 => simp at h
    next htr0 =>
      split at h
      next hmin => simp at h
      next hmin =>
        split at h
        next htrc => simp at h
        next htrc =>
          split at h
          next htec => simp at h
          next htec =>
            rw [Except.ok.injEq, Prod.mk.injEq] at h
            obtain ⟨hti, hsi⟩ := h
            subst hti
            subst hsi
            refine ((shuffle_perm _ _).append (shuffle_perm _ _)).trans ?_
            exact split_core_perm y (lcg seed)
              (y.length - (ceilMulNat ts y.length).toNat)
              ((ceilMulNat ts y.length).toNat)
              _ _ _ _ _ _ rfl rfl rfl rfl rfl rfl (by omega)

/-! ### `model.py` and `app.py`: estimator, artifact store, endpoints -/

instance {α β : Type} [DecidableEq α] [DecidableEq β] : DecidableEq (Except α β) :=
  fun a b =>
    match a, b with
    | .ok x, .ok y =>
      if h : x = y then .isTrue (by rw [h]) else .isFalse (by simp [h])
    | .error x, .error y =>
      if h : x = y then .isTrue (by rw [h]) else .isFalse (by simp [h])
    | .ok _, .error _ => .isFalse (by simp)
    | .error _, .ok _ => .isFalse (by simp)

/-- The hyperparameters `model.py` passes to `RandomForestClassifier`
(defaulted exactly as in `train`). -/
structure RFParams where
  n_estimators : Nat := 100
  max_depth : Nat := 10
  random_state : Nat := 42
deriving DecidableEq

/-- Modelled from the spec: a fitted sklearn estimator is an opaque
capability.  `nFeaturesIn` is `n_features_in_`, `classes` is `classes_`,
`predictFn` classifies one row (sklearn's `predict` returns exactly one
label per input row), and `scoreFn` is the fallible `score` method. -/
structure Estimator where
  nFeaturesIn : Nat
  classes : List String
  params : RFParams
  predictFn : List ℚ → String
  scoreFn : List (List ℚ) → List String → Except String ℚ

/-- Modelled from the spec: `RandomForestClassifier(**params).fit` — the
external learning algorithm, an opaque fallible constructor of fitted
estimators. -/
structure Algorithm where
  fit : RFParams → List (List ℚ) → List String → Except String Estimator

/-- The artifact store plus directory structure the service touches:
`files` maps a path to the estimator `joblib` persisted there, `dirs`
records directories created by `os.makedirs`. -/
structure FileSystem where
  dirs : List String
  files : List (String × Estimator)

/-- `joblib.load` / `os.path.exists` on the artifact store: look the path
up. -/
def joblib_load (fs : FileSystem) (p : String) : Option Estimator :=
  (fs.files.find? (fun kv => kv.1 = p)).map Prod.snd

/-- `joblib.dump`: single-slot per location — overwrite whatever was
persisted at `p`. -/
def joblib_dump (fs : FileSystem) (p : String) (e : Estimator) : FileSystem :=
  { fs with files := (p, e) :: fs.files.filter (fun kv => ¬ kv.1 = p) }

/-- POSIX `os.path.dirname` for the relative paths this service uses:
everything before the last `/`, and the empty string when the path has no
directory component. -/
def dirname (p : String) : String :=
  if ('/') ∈ p.data then
    String.mk (((p.data.reverse.dropWhile (fun c => ¬ c = '/')).drop 1).reverse)
  else ""

/-- `os.makedirs(path, exist_ok=True)`: creating the empty path raises
`FileNotFoundError` (`exist_ok` only suppresses `FileExistsError`);
otherwise the directory chain exists afterwards. -/
def makedirs (fs : FileSystem) (p : String) : Except String FileSystem :=
  if p = "" then .error ("No such file or directory: ")
  else .ok { fs with dirs := p :: fs.dirs }

/-- `model.py train`: fill in the default hyperparameters, fit, create the
artifact directory, persist with `joblib.dump`, and return the model (and
the updated store).  Any failure propagates and nothing is persisted. -/
def train (fs : FileSystem) (alg : Algorithm) (XTrain : List (List ℚ))
    (yTrain : List String) (model_params : Option RFParams)
    (model_path : String) : Except String (Estimator × FileSystem) :=
  match alg.fit (model_params.getD {}) XTrain yTrain with
  | .error e => .error e
  | .ok model =>
    match makedirs fs (dirname model_path) with
    | .error e => .error e
    | .ok fs2 => .ok (model, joblib_dump fs2 model_path model)

/-- `model.py test` (aliased `evaluate_model`): delegate to the
estimator's `score`. -/
def test (model : Estimator) (XTest : List (List ℚ)) (yTest : List String) :
    Except String ℚ :=
  model.scoreFn XTest yTest

/-- sklearn's `model.predict`: validate the width of the input matrix
against the fitted feature dimension (raising the library's `ValueError`
message otherwise), then classify row by row. -/
def sklearn_predict (e : Estimator) (X : List (List ℚ)) :
    Except String (List String) :=
  if (X.headD []).length = e.nFeaturesIn then .ok (X.map e.predictFn)
  else .error ("X has " ++ toString (X.headD []).length ++
    " features, but RandomForestClassifier is expecting " ++
    toString e.nFeaturesIn ++ " features as input.")

/-- `model.py predict`: use the given model, or load one from
`model_path`; with neither, raise `ValueError`. -/
def predict (fs : FileSystem) (model : Option Estimator) (X : List (List ℚ))
    (model_path : Option String) : Except String (List String) :=
  match model, model_path with
  | some m, _ => sklearn_predict m X
  | none, some p =>
    match joblib_load fs p with
    | some m => sklearn_predict m X
    | none => .error ("No such file or directory: " ++ p)
  | none, none => .error ("Either model or model_path must be provided")

/-- A JSON value as Flask's `request.get_json()` yields it. -/
inductive Json where
  | null
  | bool (b : Bool)
  | num (q : ℚ)
  | str (s : String)
  | arr (xs : List Json)
  | obj (fields : List (String × Json))

/-- Python truthiness of a JSON value (`if not features` uses it):
`None`, `False`, `0`, `""`, `[]` and `{}` are falsy. -/
def truthy : Json → Bool
  | .null => false
  | .bool b => b
  | .num q => ¬ q.num = 0
  | .str s => ¬ s = ""
  | .arr xs => ¬ xs.isEmpty
  | .obj fs => ¬ fs.isEmpty

/-- Truthiness of the request body; `none` models a missing body. -/
def truthyOpt : Option Json → Bool
  | none => false
  | some j => truthy j

def isArr : Json → Bool
  | .arr _ => true
  | _ => false

def asNum : Json → Option ℚ
  | .num q => some q
  | _ => none

/-- `np.array(features)` followed by the endpoint's
`if X.ndim == 1: X = X.reshape(1, -1)`: a flat numeric list becomes a
single row, a uniform list of numeric lists becomes a matrix, and any
other payload raises inside the handler (ragged or non-numeric input
fails in numpy/sklearn). -/
def toMatrix (xs : List Json) : Except String (List (List ℚ)) :=
  match xs.mapM asNum with
  | some row => .ok [row]
  | none =>
    match xs.mapM (fun x => match x with | .arr ys => ys.mapM asNum | _ => none) with
    | some rows =>
      if rows.all (fun r => r.length = (rows.headD []).length) then .ok rows
      else .error ("setting an array element with a sequence")
    | none => .error ("could not convert input to a numeric array")

/-- The observable response of the predict endpoint: HTTP status, error
message, and the prediction list on success. -/
structure PredictResp where
  status : Nat
  message : Option String
  predictions : Option (List String)
deriving DecidableEq

/-- Instrumentation of the collaborator calls an endpoint performs:
how many times `joblib.load` ran and how many times the estimator's
`predict` was invoked. -/
structure Trace where
  loads : Nat
  estCalls : Nat
deriving DecidableEq

/-- The default artifact location of `app.py`
(`os.environ.get('MODEL_PATH', 'models/iris_model.joblib')`). -/
def MODEL_PATH : String := "models/iris_model.joblib"

/-- The default version tag of `app.py`. -/
def VERSION : String := "v1.0.0"

/-- `app.py predict_endpoint`: existence check, `joblib.load`, Python
truthiness check of the body, list check, numpy conversion/reshape, and
the `predict` call; every raised error is caught and returned as a
status-500 response. -/
def predict_endpoint (fs : FileSystem) (body : Option Json) :
    PredictResp × Trace :=
  match joblib_load fs MODEL_PATH with
  | none =>
    ({ status := 404,
       message := some ("Model not found at " ++ MODEL_PATH ++ ". Train the model first."),
       predictions := none }, ⟨0, 0⟩)
  | some model =>
    if ¬ truthyOpt body then
      ({ status := 400, message := some ("No features provided"),
         predictions := none }, ⟨1, 0⟩)
    else
      match body with
      | some (.arr xs) =>
        (match toMatrix xs with
          | .error msg =>
            ({ status := 500, message := some msg, predictions := none }, ⟨1, 0⟩)
          | .ok X =>
            match predict fs (some model) X none with
            | .error msg =>
              ({ status := 500, message := some msg, predictions := none }, ⟨1, 1⟩)
            | .ok preds =>
              ({ status := 200, message := none, predictions := some preds }, ⟨1, 1⟩))
      | _ =>
        ({ status := 400,
           message := some ("Invalid input format. Expected list of features."),
           predictions := none }, ⟨1, 0⟩)

/-- The observable response of the `/info` endpoint. -/
structure InfoResp where
  status : Nat
  message : Option String
  model_type : Option String
  parameters : Option RFParams
  features_count : Option Nat
  classes : Option (List String)
  model_path : Option String
  version : Option String
deriving DecidableEq

/-- `app.py model_info`: existence check, `joblib.load`, then the
artifact's metadata. -/
def model_info (fs : FileSystem) : InfoResp × Trace :=
  match joblib_load fs MODEL_PATH with
  | none =>
    ({ status := 404,
       message := some ("Model not found at " ++ MODEL_PATH ++ ". Train the model first."),
       model_type := none, parameters := none, features_count := none,
       classes := none, model_path := none, version := none }, ⟨0, 0⟩)
  | some m =>
    ({ status := 200, message := none,
       model_type := some ("RandomForestClassifier"),
       parameters := some m.params,
       features_count := some m.nFeaturesIn,
       classes := some m.classes,
       model_path := some MODEL_PATH,
       version := some VERSION }, ⟨1, 0⟩)

/-- The observable response of the train endpoint. -/
structure TrainResp where
  status : Nat
  message : Option String
  accuracy : Option ℚ
  train_samples : Option Nat
  test_samples : Option Nat
deriving DecidableEq

/-- The status-500 response `app.py` builds in its `except` handler. -/
def errTrainResp (msg : String) : TrainResp :=
  { status := 500, message := some msg, accuracy := none,
    train_samples := none, test_samples := none }

/-- The parameters of a train request with `app.py`'s defaults. -/
structure TrainParams where
  data_url : String :=
    "https://archive.ics.uci.edu/ml/machine-learning-databases/iris/iris.data"
  test_size : ℚ := mkRat 1 5
  model_params : Option RFParams := none

/-- `app.py train_model`; `fetch` models the `load_data` network fetch and
parse (an external collaborator).  Returns the response together with the
artifact store after the request: the `except` handler turns any raised
error into a status-500 response but does not undo the `joblib.dump` that
`train` has already performed, so a failure after `train` leaves the new
artifact persisted. -/
def train_model (fetch : String → Except String (List Row)) (alg : Algorithm)
    (fs : FileSystem) (p : TrainParams) : TrainResp × FileSystem :=
  match fetch p.data_url with
  | .error msg => (errTrainResp msg, fs)
  | .ok data =>
    match preprocess_data data p.test_size 42 with
    | .error msg => (errTrainResp msg, fs)
    | .ok sr =>
      match train fs alg sr.XTrain sr.yTrain p.model_params MODEL_PATH with
      | .error msg => (errTrainResp msg, fs)
      | .ok (model, fs2) =>
        match test model sr.XTest sr.yTest with
        | .error msg => (errTrainResp msg, fs2)
        | .ok acc =>
          ({ status := 200, message := some ("Model trained successfully"),
             accuracy := some acc,
             train_samples := some sr.XTrain.length,
             test_samples := some sr.XTest.length }, fs2)

/-! ### Concrete fixtures -/

/-- Six iris rows, two per class (the shape of the repository's own
`test_preprocess_data` fixture). -/
def table6 : List Row :=
  [⟨[mkRat 51 10], "Iris-setosa"⟩,
   ⟨[mkRat 49 10], "Iris-setosa"⟩,
   ⟨[mkRat 63 10], "Iris-virginica"⟩,
   ⟨[mkRat 58 10], "Iris-versicolor"⟩,
   ⟨[mkRat 71 10], "Iris-virginica"⟩,
   ⟨[mkRat 57 10], "Iris-versicolor"⟩]

/-- An iris-style table: 150 rows, three classes of 50 rows each. -/
def irisTable : List Row :=
  (List.range 150).map (fun i =>
    { features := [mkRat i 1]
      label := if i < 50 then "A" else if i < 100 then "B" else "C" })

/-- The value `preprocess_data table6 (1/2) 42` computes. -/
def res6 : SplitResult :=
  { XTrain := [[mkRat 29 5], [mkRat 71 10], [mkRat 51 10]]
    XTest := [[mkRat 63 10], [mkRat 49 10], [mkRat 57 10]]
    yTrain := ["Iris-versicolor", "Iris-virginica", "Iris-setosa"]
    yTest := ["Iris-virginica", "Iris-setosa", "Iris-versicolor"] }

/-- A concrete fitted estimator over four features. -/
def estC : Estimator :=
  { nFeaturesIn := 4
    classes := ["Iris-setosa", "Iris-versicolor", "Iris-virginica"]
    params := {}
    predictFn := fun _ => "Iris-setosa"
    scoreFn := fun _ _ => .ok (mkRat 1 1) }

/-- A concrete fitted estimator over one feature whose `score` raises. -/
def estFailScore : Estimator :=
  { nFeaturesIn := 1
    classes := ["Iris-setosa", "Iris-versicolor", "Iris-virginica"]
    params := {}
    predictFn := fun _ => "Iris-setosa"
    scoreFn := fun _ _ =>
      .error ("Found input variables with inconsistent numbers of samples") }

/-- An algorithm whose `fit` succeeds and yields `estFailScore`. -/
def algC : Algorithm := ⟨fun _ _ _ => .ok estFailScore⟩

/-- The empty artifact store. -/
def fs0 : FileSystem := ⟨[], []⟩

/-- A store holding a trained artifact at the configured location. -/
def fs1 : FileSystem := ⟨["models"], [(MODEL_PATH, estC)]⟩

/-- A fetch collaborator that always delivers `table6`. -/
def fetch6 : String → Except String (List Row) := fun _ => .ok table6

/-- Train parameters asking for a half/half split of `table6`. -/
def params6 : TrainParams := { test_size := mkRat 1 2 }

/-! ### The claims -/

/-- C1 (counterexample): the claim quantifies over every labeled table
with at least two samples per class and every `test_fraction ∈ (0, 1)`,
but sklearn additionally rejects the split when the test share rounds to
fewer rows than there are classes: on the six-row three-class table with
`test_fraction = 1/10` the embedded `preprocess_data` raises instead of
partitioning, even though every class has two samples and the fraction is
in range. -/
theorem preprocess_data_rejects_valid_table :
    (∀ c ∈ (table6.map Row.label).dedup, 2 ≤ (table6.map Row.label).count c) ∧
    0 < mkRat 1 10 ∧ mkRat 1 10 < 1 ∧
    preprocess_data table6 (mkRat 1 10) 42 =
      .error ("The test_size should be greater or equal to the number of classes") := by
  refine ⟨by decide, ?_, ?_, by decide⟩
  · norm_num [Rat.mkRat_eq_div]
  · norm_num [Rat.mkRat_eq_div]

/-- C1 (amended): whenever `preprocess_data` succeeds, the returned train
and test sets partition the original rows — the underlying index lists are
disjoint and together a permutation of all row indices, and the returned
(feature, label) pairs are exactly a permutation of the original rows,
with no row duplicated or dropped. -/
theorem preprocess_data_partition (data : List Row) (ts : ℚ) (seed : Nat)
    (res : SplitResult) (h : preprocess_data data ts seed = .ok res) :
    ∃ ti si, stratifiedShuffleSplit (data.map Row.label) ts seed = .ok (ti, si) ∧
      (ti ++ si).Perm (List.range data.length) ∧
      ti.Disjoint si ∧
      res.XTrain = ti.map (fun i => (data.getD i default).features) ∧
      res.yTrain = ti.map (fun i => (data.getD i default).label) ∧
      res.XTest = si.map (fun i => (data.getD i default).features) ∧
      res.yTest = si.map (fun i => (data.getD i default).label) ∧
      (res.XTrain.zip res.yTrain ++ res.XTest.zip res.yTest).Perm
        (data.map (fun r => (r.features, r.label))) := by
  unfold preprocess_data at h
  cases hs : stratifiedShuffleSplit (data.map Row.label) ts seed with
  | error e =>
    rw [hs] at h
    simp [Except.map] at h
  | ok p =>
    obtain ⟨ti, si⟩ := p
    rw [hs] at h
    simp only [Except.map, Except.ok.injEq] at h
    subst h
    have hperm0 : (ti ++ si).Perm (List.range data.length) := by
      have hp := stratified_partition (data.map Row.label) ts seed ti si hs
      rwa [List.length_map] at hp
    have hnd : (ti ++ si).Nodup := hperm0.symm.nodup (List.nodup_range _)
    refine ⟨ti, si, rfl, hperm0, List.disjoint_of_nodup_append hnd,
      rfl, rfl, rfl, rfl, ?_⟩
    have hz1 : (ti.map (fun i => (data.getD i default).features)).zip
        (ti.map (fun i => (data.getD i default).label)) =
        ti.map (fun i =>
          ((data.getD i default).features, (data.getD i default).label)) :=
      List.zip_map' _ _ ti
    have hz2 : (si.map (fun i => (data.getD i default).features)).zip
        (si.map (fun i => (data.getD i default).label)) =
        si.map (fun i =>
          ((data.getD i default).features, (data.getD i default).label)) :=
      List.zip_map' _ _ si
    show ((ti.map (fun i => (data.getD i default).features)).zip
        (ti.map (fun i => (data.getD i default).label)) ++
        (si.map (fun i => (data.getD i default).features)).zip
          (si.map (fun i => (data.getD i default).label))).Perm
        (data.map (fun r => (r.features, r.label)))
    rw [hz1, hz2, ← List.map_append]
    have hmap := hperm0.map (fun i =>
      ((data.getD i default).features, (data.getD i default).label))
    refine hmap.trans ?_
    have hre : (List.range data.length).map (fun i =>
        ((data.getD i default).features, (data.getD i default).label)) =
        data.map (fun r => (r.features, r.label)) := by
      have hcomp : (List.range data.length).map (fun i =>
          ((data.getD i default).features, (data.getD i default).label)) =
          ((List.range data.length).map (fun i => data.getD i default)).map
            (fun r => (r.features, r.label)) := by
        rw [List.map_map]
        rfl
      rw [hcomp, map_getD_range default data]
    exact hre ▸ List.Perm.refl _

/-- C1 (witness): a successful concrete split of the six-row table. -/
theorem preprocess_data_partition_witness :
    ∃ ti si,
      stratifiedShuffleSplit (table6.map Row.label) (mkRat 1 2) 42 = .ok (ti, si) ∧
      (ti ++ si).Perm (List.range table6.length) ∧
      ti.Disjoint si ∧
      res6.XTrain = ti.map (fun i => (table6.getD i default).features) ∧
      res6.yTrain = ti.map (fun i => (table6.getD i default).label) ∧
      res6.XTest = si.map (fun i => (table6.getD i default).features) ∧
      res6.yTest = si.map (fun i => (table6.getD i default).label) ∧
      (res6.XTrain.zip res6.yTrain ++ res6.XTest.zip res6.yTest).Perm
        (table6.map (fun r => (r.features, r.label))) :=
  preprocess_data_partition table6 (mkRat 1 2) 42 res6 (by decide)

/-- C2: persisting a trained artifact with `joblib.dump` (as `train` does)
and loading it back with `joblib.load` yields the very artifact that was
saved, so its `predict` output on any fixed input batch is identical to
the original in-memory model's. -/
theorem save_load_roundtrip (fs : FileSystem) (p : String) (e : Estimator)
    (X : List (List ℚ)) :
    joblib_load (joblib_dump fs p e) p = some e ∧
    (joblib_load (joblib_dump fs p e) p).map (fun m => sklearn_predict m X) =
      some (sklearn_predict e X) := by
  have hload : joblib_load (joblib_dump fs p e) p = some e := by
    unfold joblib_load joblib_dump
    simp [List.find?_cons_of_pos]
  exact ⟨hload, by rw [hload]; rfl⟩

/-- C3: the split is a deterministic function of the table, the test
fraction and the seed — the embedding threads the seed through the
modelled rng explicitly, so two runs with equal arguments return equal
results (same rows, same order, on both sides of the partition). -/
theorem preprocess_data_deterministic (d₁ d₂ : List Row) (t₁ t₂ : ℚ)
    (s₁ s₂ : Nat) (hd : d₁ = d₂) (ht : t₁ = t₂) (hs : s₁ = s₂) :
    preprocess_data d₁ t₁ s₁ = preprocess_data d₂ t₂ s₂ := by
  rw [hd, ht, hs]

/-- C3 (witness): two runs on the six-row table with the default seed. -/
theorem preprocess_data_deterministic_witness :
    preprocess_data table6 (mkRat 1 2) 42 = preprocess_data table6 (mkRat 1 2) 42 :=
  preprocess_data_deterministic table6 table6 (mkRat 1 2) (mkRat 1 2) 42 42
    rfl rfl rfl

set_option maxRecDepth 4000000 in
/-- C4: on a 150-row table with three classes of 50 rows each and
`test_fraction = 1/5` (the exact value of the requested 0.2), the split
returns a test set of exactly 30 rows — 10 of each class — and a train
set of exactly 120 rows. -/
theorem iris_split_counts :
    (preprocess_data irisTable (mkRat 1 5) 42).toOption.map (fun r =>
      (r.XTrain.length, r.XTest.length,
       r.yTest.count ("A"), r.yTest.count ("B"), r.yTest.count ("C"))) =
      some (120, 30, 10, 10, 10) := by
  decide

/-- When `train` succeeds, the store it returns holds the returned model
at the requested location. -/
theorem train_ok_loads (fs : FileSystem) (alg : Algorithm) (X : List (List ℚ))
    (y : List String) (mp : Option RFParams) (path : String)
    (model : Estimator) (fs2 : FileSystem)
    (h : train fs alg X y mp path = .ok (model, fs2)) :
    joblib_load fs2 path = some model := by
  unfold train at h
  cases hf : alg.fit (mp.getD {}) X y with
  | error e =>
    rw [hf] at h
    simp at h
  | ok m =>
    rw [hf] at h
    cases hm : makedirs fs (dirname path) with
    | error e =>
      rw [hm] at h
      simp at h
    | ok fsd =>
      rw [hm] at h
      simp only [Except.ok.injEq, Prod.mk.injEq] at h
      obtain ⟨hm1, hm2⟩ := h
      subst hm1
      subst hm2
      unfold joblib_load joblib_dump
      simp [List.find?_cons_of_pos]

/-- C5 (counterexample): the claim says a failure during scoring leaves
the artifact store unchanged, but `train` persists the artifact with
`joblib.dump` before `test` scores it.  Concretely: starting from the
empty store, a train request whose fitted model's `score` raises returns a
status-500 response while the artifact is now persisted at the configured
location. -/
theorem train_model_scoring_failure_persists :
    (train_model fetch6 algC fs0 params6).1 =
      errTrainResp ("Found input variables with inconsistent numbers of samples") ∧
    joblib_load fs0 MODEL_PATH = none ∧
    (joblib_load (train_model fetch6 algC fs0 params6).2 MODEL_PATH).isSome = true := by
  refine ⟨by decide, rfl, ?_⟩
  rfl

/-- C5 (amended): a failure while fetching, splitting, or fitting aborts
the request with an error response and leaves the artifact store
unchanged; but the artifact is persisted inside `train` before scoring, so
a failure during scoring returns an error response while the freshly
trained artifact remains persisted at the configured location. -/
theorem train_model_failure_state (fetch : String → Except String (List Row))
    (alg : Algorithm) (fs : FileSystem) (p : TrainParams) :
    (∀ msg, fetch p.data_url = .error msg →
      train_model fetch alg fs p = (errTrainResp msg, fs)) ∧
    (∀ data msg, fetch p.data_url = .ok data →
      preprocess_data data p.test_size 42 = .error msg →
      train_model fetch alg fs p = (errTrainResp msg, fs)) ∧
    (∀ data sr msg, fetch p.data_url = .ok data →
      preprocess_data data p.test_size 42 = .ok sr →
      train fs alg sr.XTrain sr.yTrain p.model_params MODEL_PATH = .error msg →
      train_model fetch alg fs p = (errTrainResp msg, fs)) ∧
    (∀ data sr model fs2 msg, fetch p.data_url = .ok data →
      preprocess_data data p.test_size 42 = .ok sr →
      train fs alg sr.XTrain sr.yTrain p.model_params MODEL_PATH = .ok (model, fs2) →
      test model sr.XTest sr.yTest = .error msg →
      train_model fetch alg fs p = (errTrainResp msg, fs2) ∧
        joblib_load fs2 MODEL_PATH = some model) := by
  refine ⟨?_, ?_, ?_, ?_⟩
  · intro msg hf
    simp only [train_model, hf]
  · intro data msg hf hp
    simp only [train_model, hf, hp]
  · intro data sr msg hf hp htr
    simp only [train_model, hf, hp, htr]
  · intro data sr model fs2 msg hf hp htr hsc
    constructor
    · simp only [train_model, hf, hp, htr, hsc]
    · exact train_ok_loads fs alg sr.XTrain sr.yTrain p.model_params MODEL_PATH
        model fs2 htr

/-- C5 (witness): a failing fetch aborts the request and leaves the empty
store untouched. -/
theorem train_model_failure_state_witness :
    train_model (fun _ => .error ("connection refused")) algC fs0 params6 =
      (errTrainResp ("connection refused"), fs0) :=
  (train_model_failure_state (fun _ => .error ("connection refused"))
    algC fs0 params6).1 ("connection refused") rfl

/-- C6 (counterexample): the claim says a wrong-dimension input makes the
flow fail with `DimensionMismatch` without invoking the estimator, but
`predict_endpoint` performs no dimension validation of its own: with a
4-feature artifact and a 2-feature input row, the estimator's `predict`
IS invoked (`estCalls = 1`), raises internally, and the handler returns a
generic status-500 error. -/
theorem predict_endpoint_dim_mismatch_cex :
    predict_endpoint fs1 (some (.arr [.arr [.num (mkRat 1 1), .num (mkRat 2 1)]])) =
      ({ status := 500,
         message := some ("X has 2 features, but RandomForestClassifier is expecting 4 features as input."),
         predictions := none }, ⟨1, 1⟩) := by
  decide

/-- C6 (amended): with an artifact of feature dimension `D` present, a
list-shaped request that parses to a matrix whose width differs from `D`
reaches the estimator: its `predict` is invoked once, raises sklearn's
feature-count `ValueError`, and the endpoint surfaces it as a generic
status-500 error (there is no separate `DimensionMismatch` kind and no
pre-validation). -/
theorem predict_endpoint_dim_mismatch (fs : FileSystem) (e : Estimator)
    (xs : List Json) (X : List (List ℚ))
    (hload : joblib_load fs MODEL_PATH = some e)
    (htr : truthy (.arr xs) = true)
    (hX : toMatrix xs = .ok X)
    (hdim : ¬ (X.headD []).length = e.nFeaturesIn) :
    predict_endpoint fs (some (.arr xs)) =
      ({ status := 500,
         message := some ("X has " ++ toString (X.headD []).length ++
           " features, but RandomForestClassifier is expecting " ++
           toString e.nFeaturesIn ++ " features as input."),
         predictions := none }, ⟨1, 1⟩) := by
  have ht2 : truthyOpt (some (.arr xs)) = true := htr
  simp only [predict_endpoint, hload, ht2, not_true, if_false, hX]
  simp only [predict, sklearn_predict, hdim, if_false]

/-- C6 (witness for the amended claim): the concrete 4-vs-2 instance. -/
theorem predict_endpoint_dim_mismatch_witness :
    predict_endpoint fs1 (some (.arr [.arr [.num (mkRat 1 1), .num (mkRat 2 1)]])) =
      ({ status := 500,
         message := some ("X has " ++ toString ([[mkRat 1 1, mkRat 2 1]].headD []).length ++
           " features, but RandomForestClassifier is expecting " ++
           toString estC.nFeaturesIn ++ " features as input."),
         predictions := none }, ⟨1, 1⟩) :=
  predict_endpoint_dim_mismatch fs1 estC [.arr [.num (mkRat 1 1), .num (mkRat 2 1)]]
    [[mkRat 1 1, mkRat 2 1]] rfl (by decide) (by decide) (by decide)

/-- C7: when no artifact is persisted at the configured location, both the
predict flow and the describe flow answer with the distinct 404
"model not trained" response, and neither attempts an artifact read beyond
the existence check (`loads = 0`). -/
theorem untrained_model_404 (fs : FileSystem) (body : Option Json)
    (h : joblib_load fs MODEL_PATH = none) :
    predict_endpoint fs body =
      ({ status := 404,
         message := some ("Model not found at " ++ MODEL_PATH ++ ". Train the model first."),
         predictions := none }, ⟨0, 0⟩) ∧
    model_info fs =
      ({ status := 404,
         message := some ("Model not found at " ++ MODEL_PATH ++ ". Train the model first."),
         model_type := none, parameters := none, features_count := none,
         classes := none, model_path := none, version := none }, ⟨0, 0⟩) := by
  constructor
  · simp only [predict_endpoint, h]
  · simp only [model_info, h]

/-- C7 (witness): the empty store. -/
theorem untrained_model_404_witness :
    predict_endpoint fs0 none =
      ({ status := 404,
         message := some ("Model not found at " ++ MODEL_PATH ++ ". Train the model first."),
         predictions := none }, ⟨0, 0⟩) ∧
    model_info fs0 =
      ({ status := 404,
         message := some ("Model not found at " ++ MODEL_PATH ++ ". Train the model first."),
         model_type := none, parameters := none, features_count := none,
         classes := none, model_path := none, version := none }, ⟨0, 0⟩) :=
  untrained_model_404 fs0 none rfl

/-- C8 (counterexample): an empty JSON object `{}` is not a list, yet the
endpoint rejects it with the empty-input message "No features provided"
rather than the invalid-format message, because Python truthiness is
checked before the list check — so "every non-list body is rejected with
InvalidInput" fails on falsy non-list bodies. -/
theorem predict_endpoint_empty_obj_cex :
    predict_endpoint fs1 (some (.obj [])) =
      ({ status := 400, message := some ("No features provided"),
         predictions := none }, ⟨1, 0⟩) ∧
    ¬ (("No features provided" : String) =
       "Invalid input format. Expected list of features.") := by
  exact ⟨by decide, by decide⟩

/-- C8 (amended): a falsy body (missing, `null`, `false`, `0`, `""`, `[]`
or `{}`) is rejected with the 400 "No features provided" error; a truthy
body that is not a list is rejected with the distinct 400
"Invalid input format" error; in neither case is a prediction produced
(`predictions = none`, the estimator is never called). -/
theorem predict_input_validation (fs : FileSystem) (e : Estimator)
    (body : Option Json) (hload : joblib_load fs MODEL_PATH = some e) :
    (truthyOpt body = false →
      predict_endpoint fs body =
        ({ status := 400, message := some ("No features provided"),
           predictions := none }, ⟨1, 0⟩)) ∧
    (∀ j, body = some j → truthy j = true → isArr j = false →
      predict_endpoint fs body =
        ({ status := 400,
           message := some ("Invalid input format. Expected list of features."),
           predictions := none }, ⟨1, 0⟩)) ∧
    ¬ (({ status := 400, message := some ("No features provided"),
          predictions := none } : PredictResp) =
       { status := 400,
         message := some ("Invalid input format. Expected list of features."),
         predictions := none }) := by
  refine ⟨?_, ?_, by decide⟩
  · intro hfalse
    simp only [predict_endpoint, hload, hfalse, Bool.false_eq_true, not_false_iff,
      if_true]
  · intro j hj htr hna
    subst hj
    simp only [predict_endpoint, hload, truthyOpt, htr, not_true, if_false]
    cases j with
    | arr xs => simp [isArr] at hna
    | null => rfl
    | bool b => rfl
    | num q => rfl
    | str s => rfl
    | obj fields => rfl

/-- C8 (witness): the falsy-object branch at a concrete store. -/
theorem predict_input_validation_witness :
    predict_endpoint fs1 (some (.obj [("a", .null)])) =
      ({ status := 400,
         message := some ("Invalid input format. Expected list of features."),
         predictions := none }, ⟨1, 0⟩) :=
  (predict_input_validation fs1 estC (some (.obj [("a", .null)])) rfl).2.1
    (.obj [("a", .null)]) rfl (by decide) (by decide)

/-- C9: `train`'s own default artifact location is a bare filename, and
`os.path.dirname` of a bare filename is the empty string, so
`os.makedirs('')` raises `FileNotFoundError` — saving to a bare filename
fails even though the working directory is writable, contradicting the
claim that missing intermediate locations are created implicitly. -/
theorem train_bare_filename_fails :
    dirname ("model.joblib") = "" ∧
    train fs0 algC [[mkRat 51 10]] ["Iris-setosa", "Iris-setosa"] none
      ("model.joblib") = .error ("No such file or directory: ") := by
  exact ⟨rfl, rfl⟩

/-- C10 (counterexample): a flat numeric list is reshaped to a single row,
but the claim's promise of a length-1 prediction list fails when the list
length differs from the artifact's feature dimension (the estimator
raises, status 500, no predictions) or when no artifact exists (status
404). -/
theorem predict_flat_wrong_dim_cex :
    predict_endpoint fs1 (some (.arr [.num (mkRat 1 1), .num (mkRat 2 1)])) =
      ({ status := 500,
         message := some ("X has 2 features, but RandomForestClassifier is expecting 4 features as input."),
         predictions := none }, ⟨1, 1⟩) ∧
    predict_endpoint fs0 (some (.arr [.num (mkRat 1 1)])) =
      ({ status := 404,
         message := some ("Model not found at " ++ MODEL_PATH ++ ". Train the model first."),
         predictions := none }, ⟨0, 0⟩) := by
  exact ⟨by decide, by decide⟩

theorem mapM_asNum_map_num (qs : List ℚ) :
    (qs.map Json.num).mapM asNum = some qs := by
  induction qs with
  | nil => rfl
  | cons q t ih => rw [List.map_cons, List.mapM_cons, ih]; rfl

/-- C10 (amended): with an artifact of feature dimension `D` present, a
non-empty flat numeric list of length `D` is interpreted as a single
sample: the endpoint reshapes it into one row and returns a prediction
list of length exactly 1. -/
theorem predict_flat_list_single_sample (fs : FileSystem) (e : Estimator)
    (qs : List ℚ) (hload : joblib_load fs MODEL_PATH = some e)
    (hne : ¬ qs = []) (hdim : qs.length = e.nFeaturesIn) :
    predict_endpoint fs (some (.arr (qs.map Json.num))) =
      ({ status := 200, message := none,
         predictions := some [e.predictFn qs] }, ⟨1, 1⟩) := by
  have hmapM : (qs.map Json.num).mapM asNum = some qs := mapM_asNum_map_num qs
  have htm : toMatrix (qs.map Json.num) = .ok [qs] := by
    unfold toMatrix
    rw [hmapM]
  have ht2 : truthyOpt (some (.arr (qs.map Json.num))) = true := by
    simp [truthyOpt, truthy, List.isEmpty_iff, hne]
  simp only [predict_endpoint, hload, ht2, not_true, if_false, htm]
  simp only [predict, sklearn_predict, List.headD_cons, hdim, if_pos,
    List.map_cons, List.map_nil]

/-- C10 (witness): a 4-feature flat sample against the 4-feature
artifact yields exactly one prediction. -/
theorem predict_flat_list_single_sample_witness :
    predict_endpoint fs1
      (some (.arr ([mkRat 5 1, mkRat 3 1, mkRat 14 10, mkRat 2 10].map Json.num))) =
      ({ status := 200, message := none,
         predictions :=
           some [estC.predictFn [mkRat 5 1, mkRat 3 1, mkRat 14 10, mkRat 2 10]] },
        ⟨1, 1⟩) :=
  predict_flat_list_single_sample fs1 estC
    [mkRat 5 1, mkRat 3 1, mkRat 14 10, mkRat 2 10] rfl (by decide) (by decide)

end CICDML
